/-
Verification of the exchange data acquisition and derivatives analytics core
(nse-bse-api).  The TypeScript sources are shallowly embedded: JS numbers are
modelled as rationals, JS division that can produce a non-finite value
(NaN or Infinity) is modelled as an `Option` whose `none` stands for the
non-finite outcome, and fallible code returns `Except`.
-/
import Mathlib

/-! ## JS numeric helpers -/

/-- Models JS `Math.round`: rounds half towards positive infinity. -/
def jsRound (q : ℚ) : ℤ := ⌊q + 1/2⌋

/-- Models JS `Number(x.toFixed(2))` for a finite `x`: the nearest multiple of
1/100, ties resolved by picking the larger candidate (ECMA-262 `toFixed`). -/
def toFixed2 (q : ℚ) : ℚ := (⌊q * 100 + 1/2⌋ : ℤ) / 100

/-- Models JS division `a / b` on finite operands: `none` stands for the
non-finite result (`NaN` when `a = 0`, `±Infinity` otherwise) produced when
`b = 0`. -/
def jsDiv (a b : ℚ) : Option ℚ := if b = 0 then none else some (a / b)

/-- Models JS `[...new Set(l)]`: duplicates removed, first occurrences kept in
their original order. -/
def jsSetDedup : List ℕ → List ℕ
  | [] => []
  | x :: xs => x :: (jsSetDedup xs).filter (· ≠ x)

/-- JS `String.prototype.trim` over the underlying character list: leading
and trailing whitespace removed (interior whitespace kept).  Written by
structural recursion so that concrete instances evaluate. -/
def trimChars (s : List Char) : List Char :=
  ((s.dropWhile Char.isWhitespace).reverse.dropWhile Char.isWhitespace).reverse

/-- JS `s.trim()`. -/
def jsTrim (s : String) : String := ⟨trimChars s.data⟩

/-- JS `s.split(' ')` over the underlying character list: splits at every
single space, so consecutive spaces produce empty groups, like the
ECMAScript split. -/
def splitSpaceChars : List Char → List (List Char)
  | [] => [[]]
  | c :: rest =>
    if c = ' ' then [] :: splitSpaceChars rest
    else
      match splitSpaceChars rest with
      | g :: gs => (c :: g) :: gs
      | [] => [[c]]

/-- JS `s.split(' ')`. -/
def jsSplitSpace (s : String) : List String :=
  (splitSpaceChars s.data).map (fun l => ⟨l⟩)

/-- JS `s.includes(' ')`. -/
def jsContainsSpace (s : String) : Bool := s.data.contains ' '

/-- Models JS `a || b` on two possibly-absent strings: the empty string is
falsy, so it falls through to `b`, as does an absent `a`. -/
def jsOrStr (a b : Option String) : Option String :=
  match a with
  | some s => if s = "" then b else some s
  | none => b

/-- Ascending numeric sort, modelling JS `.sort((a, b) => a - b)` on a list of
distinct numbers (the sorted permutation is unique, so the algorithm does not
matter). -/
def sortAsc (l : List ℕ) : List ℕ := l.insertionSort (· ≤ ·)

/-- Stable insertion (descending by `key`): the new element goes in front of
every element whose key is not larger.  Together with `sortByDesc` this models
the stable JS `Array.prototype.sort` under the comparator
`(a, b) => key(b) - key(a)`. -/
def insertByDesc {α : Type} (key : α → ℚ) (k : α) : List α → List α
  | [] => [k]
  | x :: xs => if key x ≤ key k then k :: x :: xs else x :: insertByDesc key k xs

/-- Stable sort, descending by `key` (see `insertByDesc`). -/
def sortByDesc {α : Type} (key : α → ℚ) : List α → List α
  | [] => []
  | x :: xs => insertByDesc key x (sortByDesc key xs)

/-- Stable insertion (ascending by `key`): models the stable JS sort under the
comparator `(a, b) => key(a) - key(b)`. -/
def insertByAsc {α : Type} (key : α → ℚ) (k : α) : List α → List α
  | [] => [k]
  | x :: xs => if key k ≤ key x then k :: x :: xs else x :: insertByAsc key k xs

/-- Stable sort, ascending by `key` (see `insertByAsc`). -/
def sortByAsc {α : Type} (key : α → ℚ) : List α → List α
  | [] => []
  | x :: xs => insertByAsc key x (sortByAsc key xs)

/-- First element of the list attaining the maximal `key` value (the head of
any stable descending-by-`key` sort); `0`-like fallback is never used because
callers guard non-emptiness. -/
def firstArgmax {α : Type} [Inhabited α] (key : α → ℚ) : List α → α
  | [] => default
  | [x] => x
  | x :: y :: ys => let m := firstArgmax key (y :: ys); if key m ≤ key x then x else m

/-! ## Option chain data model (source: src/nse/types, as used by
`options-api.ts`).  Strike prices are modelled as naturals: every strike in
the repository and its tests is a non-negative integer, and JS object keys
that are integer indices are enumerated in ascending numeric order, which the
max-pain functions depend on. -/

/-- One side (call or put) of a strike, with the leg fields the compiler and
the filtered view read. -/
structure OptionLeg where
  openInterest : ℚ := 0
  changeinOpenInterest : ℚ := 0
  lastPrice : ℚ := 0
  change : ℚ := 0
  pchange : ℚ := 0
  impliedVolatility : ℚ := 0
  totalTradedVolume : ℚ := 0
deriving Repr, DecidableEq

/-- A v3 option-chain row: carries `expiryDates` (singular row, plural field
name) and optional legs. -/
structure RowV3 where
  strikePrice : ℕ
  expiryDates : String
  CE : Option OptionLeg := none
  PE : Option OptionLeg := none
deriving Repr, DecidableEq

/-- A legacy option-chain row: carries `expiryDate`.  Legacy legs name the
change field `chg` where v3 legs name it `change`; both are modelled by the
same `OptionLeg` record since the compiler copies the value unchanged. -/
structure RowLegacy where
  strikePrice : ℕ
  expiryDate : String
  CE : Option OptionLeg := none
  PE : Option OptionLeg := none
deriving Repr, DecidableEq

/-- A row as seen by the dual-schema `calculateMaxPain` in
`options-api.ts`: it reads `x.expiryDates || x.expiryDate`. -/
structure RowDual where
  strikePrice : ℕ
  expiryDates : Option String := none
  expiryDate : Option String := none
  CE : Option OptionLeg := none
  PE : Option OptionLeg := none
deriving Repr, DecidableEq

/-- The expiry string the dual-schema `calculateMaxPain` associates with a
row: `(x as any).expiryDates || (x as any).expiryDate`. -/
def dualExpiry (x : RowDual) : Option String := jsOrStr x.expiryDates x.expiryDate

/-- The `records` sub-object of a v3 option-chain payload
(`data.records.underlyingValue`, `data.records.data`). -/
structure RecordsV3 where
  underlyingValue : ℚ
  timestamp : String := ""
  data : List RowV3
deriving Repr, DecidableEq

/-- A legacy option-chain payload: `records` plus the `filtered` sub-object
whose first two rows the legacy compiler reads for the strike interval. -/
structure PayloadLegacy where
  underlyingValue : ℚ
  timestamp : String := ""
  recordsData : List RowLegacy
  filteredData : List RowLegacy
deriving Repr, DecidableEq

/-! ## Max pain (`options-api.ts` lines 216-242 and 354-376) -/

/-- Contribution of row `y` to the pain at candidate strike `K`
(the inner loop body of `calculateMaxPainV3`):
`if (diff > 0 && y.CE) pain += -diff * y.CE.openInterest;`
`if (diff < 0 && y.PE) pain += diff * y.PE.openInterest;`. -/
def rowPain (K : ℕ) (strike : ℕ) (ce pe : Option OptionLeg) : ℚ :=
  let diff : ℚ := (K : ℚ) - (strike : ℚ)
  (match ce with
   | some c => if 0 < diff then -diff * c.openInterest else 0
   | none => 0) +
  (match pe with
   | some p => if diff < 0 then diff * p.openInterest else 0
   | none => 0)

/-- `painMap[K]` of `calculateMaxPainV3`: total pain at candidate strike `K`,
summed over the rows whose `expiryDates` matches the target expiry. -/
def painAtV3 (rows : List RowV3) (expiry : String) (K : ℕ) : ℚ :=
  ((rows.filter (fun y => y.expiryDates = expiry)).map
    (fun y => rowPain K y.strikePrice y.CE y.PE)).sum

/-- The key list of `painMap` as enumerated by `Object.keys`: the distinct
strikes of the expiry-matching rows, in ascending numeric order (JS enumerates
integer-index keys ascending, regardless of insertion order). -/
def painKeysV3 (rows : List RowV3) (expiry : String) : List ℕ :=
  sortAsc (jsSetDedup ((rows.filter (fun y => y.expiryDates = expiry)).map (·.strikePrice)))

/-- `OptionsApi.calculateMaxPainV3`: the strike keys sorted descending by pain
(stable JS sort under `(a, b) => painMap[b] - painMap[a]`), first element
taken, `|| 0` turning the empty case into `0`. -/
def calculateMaxPainV3 (rows : List RowV3) (expiry : String) : ℕ :=
  (sortByDesc (painAtV3 rows expiry) (painKeysV3 rows expiry)).headD 0

/-- Pain at `K` for the dual-schema `calculateMaxPain` (rows matched through
`dualExpiry`). -/
def painAtDual (rows : List RowDual) (expiry : String) (K : ℕ) : ℚ :=
  ((rows.filter (fun y => dualExpiry y = some expiry)).map
    (fun y => rowPain K y.strikePrice y.CE y.PE)).sum

/-- Key list of the dual-schema `calculateMaxPain` pain map. -/
def painKeysDual (rows : List RowDual) (expiry : String) : List ℕ :=
  sortAsc (jsSetDedup ((rows.filter (fun y => dualExpiry y = some expiry)).map (·.strikePrice)))

/-- The dual-schema `OptionsApi.calculateMaxPain` of `options-api.ts`
(lines 216-242), after the `Date` argument has been rendered by
`formatDateExpiry` into the expiry string compared against the rows. -/
def calculateMaxPainDual (rows : List RowDual) (expiry : String) : ℕ :=
  (sortByDesc (painAtDual rows expiry) (painKeysDual rows expiry)).headD 0

/-- Pain at `K` for the legacy `calculateMaxPain` (rows matched on
`expiryDate`). -/
def painAtLegacy (rows : List RowLegacy) (expiry : String) (K : ℕ) : ℚ :=
  ((rows.filter (fun y => y.expiryDate = expiry)).map
    (fun y => rowPain K y.strikePrice y.CE y.PE)).sum

/-- Key list of the legacy `calculateMaxPain` pain map. -/
def painKeysLegacy (rows : List RowLegacy) (expiry : String) : List ℕ :=
  sortAsc (jsSetDedup ((rows.filter (fun y => y.expiryDate = expiry)).map (·.strikePrice)))

/-- The legacy `OptionsApi.calculateMaxPain` (unnamed legacy module,
lines 120-143): identical to the v3 computation except for the expiry field
and for the missing `|| 0`, so an empty pain map yields JS `undefined`,
modelled as `none`. -/
def calculateMaxPainLegacy (rows : List RowLegacy) (expiry : String) : Option ℕ :=
  (sortByDesc (painAtLegacy rows expiry) (painKeysLegacy rows expiry)).head?

/-! ## Option chain compilation (`compileOptionChainV3`, lines 280-349, and
the legacy `compileOptionChain`, unnamed legacy module lines 169-241) -/

/-- One `{last, oi, chg, iv}` record of the per-strike `chain` table. -/
structure StrikeLegView where
  last : ℚ
  oi : ℚ
  chg : ℚ
  iv : ℚ
deriving Repr, DecidableEq

/-- One entry of the per-strike `chain` table: `{pe, ce, pcr}`, where
`pcr = null` (modelled `none`) when either leg has zero open interest. -/
structure StrikeEntry where
  pe : StrikeLegView
  ce : StrikeLegView
  pcr : Option ℚ
deriving Repr, DecidableEq

/-- Writes `chain[strike] = entry` on the JS object modelled as an
association list: an existing key is overwritten in place, a fresh key is
appended. -/
def setEntry (chain : List (ℕ × StrikeEntry)) (k : ℕ) (v : StrikeEntry) :
    List (ℕ × StrikeEntry) :=
  if chain.any (fun p => p.1 = k) then
    chain.map (fun p => if p.1 = k then (k, v) else p)
  else
    chain ++ [(k, v)]

/-- The mutable loop state of both compilers. -/
structure CompileAcc where
  chain : List (ℕ × StrikeEntry)
  maxCoi : ℚ
  maxPoi : ℚ
  totalCoi : ℚ
  totalPoi : ℚ
  maxCoiStrike : ℕ
  maxPoiStrike : ℕ
deriving Repr, DecidableEq

/-- Initial loop state: empty chain, all counters zero. -/
def initAcc : CompileAcc := ⟨[], 0, 0, 0, 0, 0, 0⟩

/-- One iteration of the compile loop, shared verbatim by the v3 and the
legacy compiler (both destructure the legs identically): reads the legs of a
row, updates the per-strike table, the running totals and the max-OI
trackers (strictly larger wins, so the first-seen strike is kept on ties). -/
def compileStepCore (acc : CompileAcc) (strike : ℕ) (ce pe : Option OptionLeg) :
    CompileAcc :=
  let poiView : ℚ × StrikeLegView :=
    match pe with
    | some p => (p.openInterest, ⟨p.lastPrice, p.openInterest, p.change, p.impliedVolatility⟩)
    | none => (0, ⟨0, 0, 0, 0⟩)
  let coiView : ℚ × StrikeLegView :=
    match ce with
    | some c => (c.openInterest, ⟨c.lastPrice, c.openInterest, c.change, c.impliedVolatility⟩)
    | none => (0, ⟨0, 0, 0, 0⟩)
  let poi := poiView.1
  let coi := coiView.1
  let entry : StrikeEntry :=
    ⟨poiView.2, coiView.2,
     if poi = 0 ∨ coi = 0 then none else some (toFixed2 (poi / coi))⟩
  { chain := setEntry acc.chain strike entry
    maxPoi := if acc.maxPoi < poi then poi else acc.maxPoi
    maxPoiStrike := if acc.maxPoi < poi then strike else acc.maxPoiStrike
    maxCoi := if acc.maxCoi < coi then coi else acc.maxCoi
    maxCoiStrike := if acc.maxCoi < coi then strike else acc.maxCoiStrike
    totalPoi := acc.totalPoi + poi
    totalCoi := acc.totalCoi + coi }

/-- The compiled chain produced by `compileOptionChainV3`. -/
structure CompiledOptionChain where
  expiry : String
  timestamp : String
  underlying : ℚ
  atm : ℚ
  maxpain : ℕ
  maxCoi : ℕ
  maxPoi : ℕ
  coiTotal : ℚ
  poiTotal : ℚ
  pcr : ℚ
  chain : List (ℕ × StrikeEntry)
deriving Repr, DecidableEq

/-- The strike interval of `compileOptionChainV3`:
`strikes[1] - strikes[0]` of the ascending-sorted distinct strikes when at
least two exist, else `50`. -/
def strikeIntervalV3 (rows : List RowV3) : ℕ :=
  match sortAsc (jsSetDedup (rows.map (·.strikePrice))) with
  | s0 :: s1 :: _ => s1 - s0
  | _ => 50

/-- `OptionsApi.compileOptionChainV3`, given the already-fetched payload:
interval inference, `atm = multiple * Math.round(underlying / multiple)`,
max pain, per-strike table, totals, and the guarded chain-level
`pcr = totalCoi > 0 ? toFixed2(totalPoi / totalCoi) : 0`. -/
def compileOptionChainV3 (payload : RecordsV3) (expiry : String) :
    CompiledOptionChain :=
  let underlying := payload.underlyingValue
  let multiple := strikeIntervalV3 payload.data
  let acc := payload.data.foldl
    (fun a idx => compileStepCore a idx.strikePrice idx.CE idx.PE) initAcc
  { expiry := expiry
    timestamp := payload.timestamp
    underlying := underlying
    atm := (multiple : ℚ) * (jsRound (underlying / (multiple : ℚ)) : ℚ)
    maxpain := calculateMaxPainV3 payload.data expiry
    maxCoi := acc.maxCoiStrike
    maxPoi := acc.maxPoiStrike
    coiTotal := acc.totalCoi
    poiTotal := acc.totalPoi
    pcr := if 0 < acc.totalCoi then toFixed2 (acc.totalPoi / acc.totalCoi) else 0
    chain := acc.chain }

/-- The compiled chain produced by the legacy `compileOptionChain`.  `atm`,
`maxpain` and `pcr` are `Option`s because the legacy code computes them
without guards: `none` models the JS `NaN`/`Infinity`/`undefined` outcome. -/
structure CompiledOptionChainLegacy where
  expiry : String
  timestamp : String
  underlying : ℚ
  atm : Option ℚ
  maxpain : Option ℕ
  maxCoi : ℕ
  maxPoi : ℕ
  coiTotal : ℚ
  poiTotal : ℚ
  pcr : Option ℚ
  chain : List (ℕ × StrikeEntry)
deriving Repr, DecidableEq

/-- The legacy `compileOptionChain`, given the already-fetched payload and the
expiry string produced by `formatDateExpiry`.  The strike interval is
`filtered.data[0].strikePrice - filtered.data[1].strikePrice` (unsorted, first
minus second); reading it throws a `TypeError` when `filtered.data` has fewer
than two rows, modelled as `Except.error`.  Rows are filtered by `expiryDate`
before the loop, and the chain-level `pcr = toFixed2(totalPoi / totalCoi)` is
unguarded: `none` models the non-finite value obtained when `totalCoi = 0`. -/
def compileOptionChainLegacy (payload : PayloadLegacy) (expiryStr : String) :
    Except String CompiledOptionChainLegacy :=
  match payload.filteredData with
  | s1 :: s2 :: _ =>
    let multiple : ℤ := (s1.strikePrice : ℤ) - (s2.strikePrice : ℤ)
    let underlying := payload.underlyingValue
    let acc := (payload.recordsData.filter (fun idx => idx.expiryDate = expiryStr)).foldl
      (fun a idx => compileStepCore a idx.strikePrice idx.CE idx.PE) initAcc
    .ok
      { expiry := expiryStr
        timestamp := payload.timestamp
        underlying := underlying
        atm := (jsDiv underlying (multiple : ℚ)).map
          (fun q => (multiple : ℚ) * (jsRound q : ℚ))
        maxpain := calculateMaxPainLegacy payload.recordsData expiryStr
        maxCoi := acc.maxCoiStrike
        maxPoi := acc.maxPoiStrike
        coiTotal := acc.totalCoi
        poiTotal := acc.totalPoi
        pcr := (jsDiv acc.totalPoi acc.totalCoi).map toFixed2
        chain := acc.chain }
  | _ => .error "TypeError"

/-! ## Filtered/essential option chain view (`getFilteredOptionChainV3`,
`options-api.ts` lines 149-211) -/

/-- The reduced leg record of the essential view. -/
structure EssentialLeg where
  lastPrice : ℚ
  change : ℚ
  pchange : ℚ
  openInterest : ℚ
  changeinOpenInterest : ℚ
  impliedVolatility : ℚ
  totalTradedVolume : ℚ
deriving Repr, DecidableEq

/-- One essential-view row. -/
structure EssentialRow where
  strikePrice : ℕ
  expiryDate : String
  CE : Option EssentialLeg
  PE : Option EssentialLeg
deriving Repr, DecidableEq

/-- Reduces a full leg to the essential fields. -/
def essentialLeg (l : OptionLeg) : EssentialLeg :=
  ⟨l.lastPrice, l.change, l.pchange, l.openInterest, l.changeinOpenInterest,
   l.impliedVolatility, l.totalTradedVolume⟩

/-- The essential view returned by `getFilteredOptionChainV3` (the `symbol`
passthrough is omitted; `strikeRange` is kept as its two numeric endpoints
rather than the rendered `"min-max"` string). -/
structure FilteredChain where
  underlyingValue : ℚ
  atmStrike : ℕ
  strikeMin : ℚ
  strikeMax : ℚ
  totalStrikes : ℕ
  data : List EssentialRow
deriving Repr, DecidableEq

/-- The ATM reduction of `getFilteredOptionChainV3`:
`uniqueStrikes.reduce((prev, curr) => |curr - u| < |prev - u| ? curr : prev)`,
performed on the first-occurrence-ordered distinct strikes, before they are
sorted. -/
def filteredAtmFold (underlying : ℚ) (u0 : ℕ) (us : List ℕ) : ℕ :=
  us.foldl
    (fun (prev curr : ℕ) =>
      if |(curr : ℚ) - underlying| < |(prev : ℚ) - underlying| then curr else prev)
    u0

/-- `OptionsApi.getFilteredOptionChainV3`, given the already-fetched payload
and the strike range (default 10): ATM by minimum distance over the listed
distinct strikes (`reduce` throws a `TypeError` on an empty array, modelled as
`Except.error`), interval from the ascending-sorted distinct strikes, window
filter, and field reduction. -/
def getFilteredOptionChainV3 (payload : RecordsV3) (strikeRange : ℕ) :
    Except String FilteredChain :=
  let underlying := payload.underlyingValue
  match jsSetDedup (payload.data.map (·.strikePrice)) with
  | [] => .error "TypeError"
  | u0 :: us =>
    let atmStrike := filteredAtmFold underlying u0 us
    let sortedStrikes := sortAsc (u0 :: us)
    let strikeInterval : ℕ :=
      match sortedStrikes with
      | s0 :: s1 :: _ => s1 - s0
      | _ => 50
    let minStrike : ℚ := (atmStrike : ℚ) - (strikeRange * strikeInterval : ℕ)
    let maxStrike : ℚ := (atmStrike : ℚ) + (strikeRange * strikeInterval : ℕ)
    let filteredData := payload.data.filter
      (fun item => minStrike ≤ (item.strikePrice : ℚ) ∧ (item.strikePrice : ℚ) ≤ maxStrike)
    let essentialData := filteredData.map (fun item =>
      EssentialRow.mk item.strikePrice item.expiryDates
        (item.CE.map essentialLeg) (item.PE.map essentialLeg))
    .ok
      { underlyingValue := underlying
        atmStrike := atmStrike
        strikeMin := minStrike
        strikeMax := maxStrike
        totalStrikes := essentialData.length
        data := essentialData }

/-! ## Gainers and losers (`EquityApi.getGainers` / `getLosers`,
equity module lines 443-460) -/

/-- A market-data row as read by the gainers/losers filters. -/
structure MarketRow where
  symbol : String
  pChange : ℚ
deriving Repr, DecidableEq

/-- The market-data envelope (`data.data`). -/
structure MarketData where
  data : List MarketRow
deriving Repr, DecidableEq

/-- `EquityApi.getGainers`: rows with positive `pChange`, stable-sorted
descending by `pChange`, truncated to `count` when a count is given. -/
def getGainers (data : MarketData) (count : Option ℕ) : List MarketRow :=
  let filtered := sortByDesc (·.pChange) (data.data.filter (fun d => 0 < d.pChange))
  match count with
  | some n => filtered.take n
  | none => filtered

/-- `EquityApi.getLosers`: rows with negative `pChange`, stable-sorted
ascending by `pChange`, truncated to `count` when a count is given. -/
def getLosers (data : MarketData) (count : Option ℕ) : List MarketRow :=
  let filtered := sortByAsc (·.pChange) (data.data.filter (fun d => d.pChange < 0))
  match count with
  | some n => filtered.take n
  | none => filtered

/-! ## Symbol text machine (`src/bse/utils/SymbolParser.ts`) -/

/-- The four-field symbol record, partially populated during incremental
construction. -/
structure LookupResult where
  company_name : Option String := none
  symbol : Option String := none
  isin : Option String := none
  bse_code : Option String := none
deriving Repr, DecidableEq

/-- The machine state: the partial record, the `start` flag set by `feed`, and
the index into the fixed field order
`[company_name, symbol, isin, bse_code]`. -/
structure MachineState where
  result : LookupResult := {}
  start : Bool := false
  index : ℕ := 0
deriving Repr, DecidableEq

/-- `field in this.result` for `field = fields[i]`. -/
def fieldSet (r : LookupResult) : ℕ → Bool
  | 0 => r.company_name.isSome
  | 1 => r.symbol.isSome
  | 2 => r.isin.isSome
  | 3 => r.bse_code.isSome
  | _ => false

/-- `this.result[fields[i]] = v`. -/
def setField (r : LookupResult) (i : ℕ) (v : String) : LookupResult :=
  match i with
  | 0 => { r with company_name := some v }
  | 1 => { r with symbol := some v }
  | 2 => { r with isin := some v }
  | 3 => { r with bse_code := some v }
  | _ => r

/-- `data.split(' ').filter(part => part.trim() !== '')`: the sub-tokens the
split branch of `handleData` dispatches. -/
def splitTokens (data : String) : List String :=
  (jsSplitSpace data).filter (fun p => jsTrim p ≠ "")

/-- `handleData` restricted to a token without a space character: the guard
(`start` set, index in range, current field unset) followed by
`this.result[field] = data.trim(); this.index++`.  The sub-tokens produced by
`splitTokens` contain no space, so on them the recursive `handleData` call of
the source coincides with this function (`handleData_eq_dispatchToken`). -/
def dispatchToken (st : MachineState) (data : String) : MachineState :=
  if st.start ∧ st.index < 4 ∧ ¬ fieldSet st.result st.index then
    if st.result.company_name.isSome ∧ jsContainsSpace data then
      st
    else
      { st with result := setField st.result st.index (jsTrim data), index := st.index + 1 }
  else st

/-- `SymbolParser.handleData`: guard (`start` set, index in range), nothing if
the current field is already populated; if `company_name` is populated and the
data contains a space character, split into sub-tokens and dispatch each in
order; otherwise store the trimmed data into the current field and advance. -/
def handleData (st : MachineState) (data : String) : MachineState :=
  if st.start ∧ st.index < 4 ∧ ¬ fieldSet st.result st.index then
    if st.result.company_name.isSome ∧ jsContainsSpace data then
      (splitTokens data).foldl dispatchToken st
    else
      { st with result := setField st.result st.index (jsTrim data), index := st.index + 1 }
  else st

/-- `SymbolParser.feed`, after the external HTML collaborator extracted the
anchor texts: with no anchors the state is unchanged (the `start` flag stays
as it was); otherwise `start` is set, the index reset to `0`, and each
anchor text is trimmed and, when non-empty, dispatched to `handleData`. -/
def feedFragments (st : MachineState) (fragments : List String) : MachineState :=
  if fragments.isEmpty then st
  else fragments.foldl
    (fun s frag =>
      let t := jsTrim frag
      if t ≠ "" then handleData s t else s)
    { st with start := true, index := 0 }

/-- A freshly constructed `SymbolParser`. -/
def initMachine : MachineState := {}

/-- `SymbolParser.resetData`. -/
def resetData (_ : MachineState) : MachineState := {}

/-- `SymbolParser.getResult`: `null` unless `this.result.symbol` is truthy
(an absent symbol and the falsy empty string both yield `null`); otherwise the
accumulated record as-is. -/
def getResult (st : MachineState) : Option LookupResult :=
  match st.result.symbol with
  | some s => if s = "" then none else some st.result
  | none => none

/-! ## Rate throttle (`src/bse/utils/throttle.ts`).  Time is modelled
explicitly in integer milliseconds: `delay(ms)` resumes exactly `ms` later and
the `Date.now()` issued after the wait reads the resumption instant.  The two
module-level timestamps form the state. -/

/-- The two throttle classes. -/
inductive ThrottleClass
  | lookup
  | default
deriving Repr, DecidableEq

/-- `throttleConfig[type].delay = Math.ceil(1000 / rps)`: 67 ms for `lookup`
(rps 15), 125 ms for `default` (rps 8). -/
def throttleDelay : ThrottleClass → ℤ
  | .lookup => 67
  | .default => 125

/-- The module-level `lastLookupRequest` / `lastDefaultRequest` pair. -/
structure ThrottleState where
  lastLookupRequest : ℤ := 0
  lastDefaultRequest : ℤ := 0
deriving Repr, DecidableEq

/-- The stored timestamp for a class. -/
def lastRequest (st : ThrottleState) : ThrottleClass → ℤ
  | .lookup => st.lastLookupRequest
  | .default => st.lastDefaultRequest

/-- `Throttle.check(type)` entered at instant `now`: computes
`wait = delay - (now - last)`, suspends for `wait` ms when positive, and only
then stores `Date.now()` (the completion instant) into the class timestamp.
Returns the completion instant together with the updated state. -/
def throttleCheck (cls : ThrottleClass) (now : ℤ) (st : ThrottleState) :
    ℤ × ThrottleState :=
  let wait := throttleDelay cls - (now - lastRequest st cls)
  let done := if 0 < wait then now + wait else now
  (done,
   match cls with
   | .lookup => { st with lastLookupRequest := done }
   | .default => { st with lastDefaultRequest := done })

/-! ## Date-range chunking -/

/-- Modelled from the spec: `splitDateRange` lives in `src/bse/utils/helpers`
and `src/nse/utils/date-formatter`, neither of which is among the available
sources (only the unit test `helpers.test` and the callers in
`historical-api.ts` are).  Following the words of the spec: dates are whole
days, modelled as integer day numbers, so `floor((to - from)/oneDay)` is
`to - from`; the call fails with `InvalidRangeError` unless `from <= to`;
`totalDaysInclusive = (to - from) + 1`, `numChunks` is the ceiling of
`totalDaysInclusive / chunkDays`, and chunk `i` runs from
`from + i*chunkDays` to `min(from + (i+1)*chunkDays - 1, to)`. -/
def splitDateRange (fromD toD : ℤ) (chunkDays : ℕ) :
    Except String (List (ℤ × ℤ)) :=
  if toD < fromD then .error "InvalidRangeError"
  else
    let total : ℕ := (toD - fromD).toNat + 1
    let num : ℕ := (total + chunkDays - 1) / chunkDays
    .ok ((List.range num).map (fun (i : ℕ) =>
      (fromD + (i : ℤ) * chunkDays, min (fromD + ((i : ℤ) + 1) * chunkDays - 1) toD)))

/-! ## Named predicates and concrete inputs used by the claim statements -/

/-- The per-strike invariant of the compile loop: every entry of the chain
table carries `pcr = null` when either stored open interest is zero, and
`toFixed2(poi / coi)` otherwise. -/
def entryPcrOk (e : StrikeEntry) : Prop :=
  e.pcr = if e.pe.oi = 0 ∨ e.ce.oi = 0 then none else some (toFixed2 (e.pe.oi / e.ce.oi))

/-- The max-pain example of the spec: strikes 100/110/120 with call open
interest 10/5/0 and put open interest 0/5/15 for one expiry. -/
def maxPainExampleRows : List RowV3 :=
  [ { strikePrice := 100, expiryDates := "E",
      CE := some { openInterest := 10 }, PE := some { openInterest := 0 } },
    { strikePrice := 110, expiryDates := "E",
      CE := some { openInterest := 5 }, PE := some { openInterest := 5 } },
    { strikePrice := 120, expiryDates := "E",
      CE := some { openInterest := 0 }, PE := some { openInterest := 15 } } ]

/-- Two degenerate rows (no legs, so both pains are `0`) listed in descending
strike order: exercises the tie-break of the max-pain sort against the
payload order. -/
def maxPainTieRows : List RowV3 :=
  [ { strikePrice := 120, expiryDates := "E" },
    { strikePrice := 100, expiryDates := "E" } ]

/-- The gainers/losers example of the spec: `pChange` values `[-1, 2, 5, 3]`
for symbols `[A, B, C, D]`. -/
def marketExample : MarketData :=
  ⟨[⟨"A", -1⟩, ⟨"B", 2⟩, ⟨"C", 5⟩, ⟨"D", 3⟩]⟩

/-- A legacy payload whose single expiry-matching row has a put leg (open
interest 5) and no call leg, so `totalCoi = 0`; the `filtered` rows only feed
the interval computation. -/
def legacyZeroCoiPayload : PayloadLegacy :=
  { underlyingValue := 100,
    recordsData := [ { strikePrice := 100, expiryDate := "E",
                       PE := some { openInterest := 5 } } ],
    filteredData := [ { strikePrice := 100, expiryDate := "E" },
                      { strikePrice := 150, expiryDate := "E" } ] }

/-- The v3 payload with the same single row (put open interest 5, no call
leg), so `totalCoi = 0` on the v3 path as well. -/
def v3ZeroCoiPayload : RecordsV3 :=
  { underlyingValue := 100,
    data := [ { strikePrice := 100, expiryDates := "E",
                PE := some { openInterest := 5 } } ] }

/-- A one-row v3 list whose expiry does not match the probed target. -/
def noMatchRowsV3 : List RowV3 :=
  [ { strikePrice := 100, expiryDates := "F" } ]

/-- A one-row dual-schema list whose resolved expiry does not match the
probed target. -/
def noMatchRowsDual : List RowDual :=
  [ { strikePrice := 100, expiryDate := some "F" } ]

/-! ## Lemmas about the stable descending sort -/

/-- `insertByDesc` never returns the empty list. -/
theorem insertByDesc_ne_nil {α : Type} (key : α → ℚ) (k : α) (l : List α) :
    insertByDesc key k l ≠ [] := by
  cases l with
  | nil => simp [insertByDesc]
  | cons x xs =>
    simp only [insertByDesc]
    split <;> simp

/-- `sortByDesc` returns the empty list only on the empty list. -/
theorem sortByDesc_ne_nil {α : Type} (key : α → ℚ) (x : α) (xs : List α) :
    sortByDesc key (x :: xs) ≠ [] := by
  simp only [sortByDesc]
  exact insertByDesc_ne_nil key x _

/-- Head of an insertion: the inserted element when its key dominates the old
head, the old head otherwise. -/
theorem headD_insertByDesc {α : Type} (key : α → ℚ) (k d : α) (l : List α) :
    (insertByDesc key k l).headD d =
      match l with
      | [] => k
      | x :: _ => if key x ≤ key k then k else x := by
  cases l with
  | nil => simp [insertByDesc]
  | cons x xs =>
    simp only [insertByDesc]
    split <;> simp_all

/-- The head of the stable descending sort is the first element attaining the
maximal key. -/
theorem headD_sortByDesc {α : Type} [Inhabited α] (key : α → ℚ) (d : α) :
    ∀ l : List α, l ≠ [] → (sortByDesc key l).headD d = firstArgmax key l := by
  intro l
  induction l with
  | nil => intro h; exact absurd rfl h
  | cons x xs ih =>
    intro _
    cases xs with
    | nil => simp [sortByDesc, insertByDesc, firstArgmax]
    | cons y ys =>
      have hne : sortByDesc key (y :: ys) ≠ [] := sortByDesc_ne_nil key y ys
      have ihne := ih (by simp)
      simp only [sortByDesc] at ihne ⊢
      cases hsort : insertByDesc key y (sortByDesc key ys) with
      | nil => exact absurd hsort (by simpa [sortByDesc] using hne)
      | cons h t =>
        rw [hsort] at ihne
        simp only [List.headD_cons] at ihne
        rw [headD_insertByDesc]
        simp only [firstArgmax, ihne]

/-- Decomposition of `firstArgmax`: everything before it has strictly smaller
key, everything after it has key at most its own (so it is exactly the head
of any stable descending sort). -/
theorem firstArgmax_spec {α : Type} [Inhabited α] (key : α → ℚ) :
    ∀ l : List α, l ≠ [] →
      ∃ l1 l2, l = l1 ++ firstArgmax key l :: l2 ∧
        (∀ a ∈ l1, key a < key (firstArgmax key l)) ∧
        (∀ a ∈ l2, key a ≤ key (firstArgmax key l)) := by
  intro l
  induction l with
  | nil => intro h; exact absurd rfl h
  | cons x xs ih =>
    intro _
    cases xs with
    | nil =>
      refine ⟨[], [], by simp [firstArgmax], by simp, by simp⟩
    | cons y ys =>
      obtain ⟨l1, l2, hdec, hlt, hle⟩ := ih (by simp)
      by_cases hcmp : key (firstArgmax key (y :: ys)) ≤ key x
      · have hfa : firstArgmax key (x :: y :: ys) = x := by
          simp [firstArgmax, hcmp]
        refine ⟨[], y :: ys, by simp [hfa], by simp, ?_⟩
        intro a ha
        have h1 : key a ≤ key (firstArgmax key (y :: ys)) := by
          rw [hdec] at ha
          rcases List.mem_append.1 ha with h1 | h2
          · exact le_of_lt (hlt a h1)
          · rcases List.mem_cons.1 h2 with rfl | h3
            · exact le_refl _
            · exact hle a h3
        rw [hfa]
        exact le_trans h1 hcmp
      · refine ⟨x :: l1, l2, ?_, ?_, ?_⟩
        · simp only [firstArgmax, if_neg hcmp]
          simpa using congrArg (x :: ·) hdec
        · intro a ha
          simp only [firstArgmax, if_neg hcmp]
          rcases List.mem_cons.1 ha with rfl | h1
          · exact lt_of_not_le hcmp
          · exact hlt a h1
        · intro a ha
          simp only [firstArgmax, if_neg hcmp]
          exact hle a ha

/-! ## Lemmas about key lists, the ATM fold and the per-strike table -/

/-- Membership is preserved by the JS `Set` dedup. -/
theorem mem_jsSetDedup (a : ℕ) : ∀ l : List ℕ, a ∈ jsSetDedup l ↔ a ∈ l := by
  intro l
  induction l with
  | nil => simp [jsSetDedup]
  | cons x xs ih =>
    by_cases hax : a = x
    · subst hax
      simp [jsSetDedup]
    · simp [jsSetDedup, hax, ih]

/-- Membership is preserved by `sortAsc`. -/
theorem mem_sortAsc (a : ℕ) (l : List ℕ) : a ∈ sortAsc l ↔ a ∈ l := by
  unfold sortAsc
  exact (List.perm_insertionSort (· ≤ ·) l).mem_iff

/-- `sortAsc` produces an ascending list. -/
theorem sortAsc_sorted (l : List ℕ) : (sortAsc l).Sorted (· ≤ ·) :=
  List.sorted_insertionSort (· ≤ ·) l

/-- The ATM fold stays inside the candidate list. -/
theorem filteredAtmFold_mem (u : ℚ) :
    ∀ (us : List ℕ) (a : ℕ), filteredAtmFold u a us = a ∨ filteredAtmFold u a us ∈ us := by
  intro us
  induction us with
  | nil => intro a; left; rfl
  | cons c rest ih =>
    intro a
    simp only [filteredAtmFold, List.foldl_cons] at *
    rcases ih (if |(c : ℚ) - u| < |(a : ℚ) - u| then c else a) with h | h
    · rw [h]
      split
      · right; exact List.mem_cons_self c rest
      · left; rfl
    · right; exact List.mem_cons_of_mem c h

/-- The ATM fold minimizes the absolute distance to the underlying over the
initial element and every candidate. -/
theorem filteredAtmFold_min (u : ℚ) :
    ∀ (us : List ℕ) (a : ℕ),
      |(filteredAtmFold u a us : ℚ) - u| ≤ |(a : ℚ) - u| ∧
      ∀ s ∈ us, |(filteredAtmFold u a us : ℚ) - u| ≤ |(s : ℚ) - u| := by
  intro us
  induction us with
  | nil => intro a; exact ⟨le_refl _, by simp⟩
  | cons c rest ih =>
    intro a
    simp only [filteredAtmFold, List.foldl_cons] at *
    obtain ⟨h1, h2⟩ := ih (if |(c : ℚ) - u| < |(a : ℚ) - u| then c else a)
    have hstep1 : |((if |(c : ℚ) - u| < |(a : ℚ) - u| then c else a : ℕ) : ℚ) - u| ≤ |(a : ℚ) - u| := by
      split
      · exact le_of_lt (by assumption)
      · exact le_refl _
    have hstep2 : |((if |(c : ℚ) - u| < |(a : ℚ) - u| then c else a : ℕ) : ℚ) - u| ≤ |(c : ℚ) - u| := by
      split
      · exact le_refl _
      · exact le_of_not_lt (by assumption)
    refine ⟨le_trans h1 hstep1, ?_⟩
    intro s hs
    rcases List.mem_cons.1 hs with rfl | hrest
    · exact le_trans h1 hstep2
    · exact h2 s hrest

/-- Membership after a `setEntry` write: an element is an untouched old entry
or the newly written pair. -/
theorem mem_setEntry {chain : List (ℕ × StrikeEntry)} {k : ℕ} {v : StrikeEntry}
    {p : ℕ × StrikeEntry} (hp : p ∈ setEntry chain k v) : p ∈ chain ∨ p = (k, v) := by
  unfold setEntry at hp
  split at hp
  · rcases List.mem_map.1 hp with ⟨q, hq, hqe⟩
    by_cases hqk : q.1 = k
    · right
      rw [if_pos hqk] at hqe
      exact hqe.symm
    · left
      rw [if_neg hqk] at hqe
      exact hqe ▸ hq
  · rcases List.mem_append.1 hp with h | h
    · exact Or.inl h
    · right
      simpa using h

/-- The entry written by one compile step satisfies the per-strike invariant:
the stored open interests are exactly the row open interests the `pcr` guard
read. -/
theorem compileStepCore_entry_ok (acc : CompileAcc) (strike : ℕ)
    (ce pe : Option OptionLeg) {p : ℕ × StrikeEntry}
    (hp : p ∈ (compileStepCore acc strike ce pe).chain)
    (hacc : ∀ q ∈ acc.chain, entryPcrOk q.2) : entryPcrOk p.2 := by
  simp only [compileStepCore] at hp
  rcases mem_setEntry hp with h | h
  · exact hacc p h
  · subst h
    cases ce <;> cases pe <;> simp [entryPcrOk]

/-- The per-strike invariant holds for the chain table built by folding the
compile step over any row list. -/
theorem foldl_compileStepCore_ok {β : Type}
    (s : β → ℕ) (ce pe : β → Option OptionLeg) :
    ∀ (rows : List β) (acc : CompileAcc),
      (∀ q ∈ acc.chain, entryPcrOk q.2) →
      ∀ p ∈ (rows.foldl (fun a b => compileStepCore a (s b) (ce b) (pe b)) acc).chain,
        entryPcrOk p.2 := by
  intro rows
  induction rows with
  | nil => intro acc hacc p hp; exact hacc p hp
  | cons r rest ih =>
    intro acc hacc p hp
    simp only [List.foldl_cons] at hp
    refine ih (compileStepCore acc (s r) (ce r) (pe r)) ?_ p hp
    intro q hq
    exact compileStepCore_entry_ok acc (s r) (ce r) (pe r) hq hacc

/-! ## Claim theorems -/

/-- C2: for every `(from, to, chunkDays)` with `from <= to` and a positive
chunk size, `splitDateRange` succeeds and returns chunks whose first starts
exactly at `from`, whose last ends exactly at `to`, which are contiguous
(each chunk starts one day after the previous one ends), non-degenerate, and
which cover every day of the inclusive interval exactly once; the number of
chunks is the ceiling of `totalDaysInclusive / chunkDays`, written here as
`(totalDaysInclusive + chunkDays - 1) / chunkDays` in natural division. -/
theorem C2_splitDateRange_chunks (fromD toD : ℤ) (c : ℕ) (hft : fromD ≤ toD) (hc : 0 < c) :
    ∃ chunks : List (ℤ × ℤ),
      splitDateRange fromD toD c = .ok chunks ∧
      chunks.length = ((toD - fromD).toNat + 1 + c - 1) / c ∧
      (chunks.headD (0, 0)).1 = fromD ∧
      (chunks.getLastD (0, 0)).2 = toD ∧
      (∀ i : ℕ, i + 1 < chunks.length →
        (chunks.getD (i + 1) (0, 0)).1 = (chunks.getD i (0, 0)).2 + 1) ∧
      (∀ i : ℕ, i < chunks.length →
        (chunks.getD i (0, 0)).1 ≤ (chunks.getD i (0, 0)).2) ∧
      (∀ d : ℤ, fromD ≤ d → d ≤ toD →
        ∃! i : ℕ, i < chunks.length ∧
          (chunks.getD i (0, 0)).1 ≤ d ∧ d ≤ (chunks.getD i (0, 0)).2) := by
  set T : ℕ := (toD - fromD).toNat + 1 with hT
  set q : ℕ := (T + c - 1) / c with hq
  set f : ℕ → ℤ × ℤ :=
    (fun (i : ℕ) => (fromD + (i : ℤ) * c, min (fromD + ((i : ℤ) + 1) * c - 1) toD)) with hf
  have hdm : c * q + (T + c - 1) % c = T + c - 1 := by
    rw [hq]; exact Nat.div_add_mod _ _
  have hmod := Nat.mod_lt (T + c - 1) hc
  have hT1 : 1 ≤ T := by omega
  have hm1 : T ≤ c * q := by omega
  have hm2 : c * q ≤ T + c - 1 := by omega
  have hq1 : 1 ≤ q := by
    rcases Nat.eq_zero_or_pos q with h0 | h1
    · rw [h0, Nat.mul_zero] at hm1; omega
    · exact h1
  have htoD : (T : ℤ) = toD - fromD + 1 := by
    rw [hT]; push_cast [Int.toNat_of_nonneg (by omega : (0:ℤ) ≤ toD - fromD)]; ring
  have hZ1 : (T : ℤ) ≤ (c : ℤ) * (q : ℤ) := by exact_mod_cast hm1
  have hZ2 : (c : ℤ) * (q : ℤ) ≤ (T : ℤ) + (c : ℤ) - 1 := by
    have h := hm2
    zify [show 1 ≤ T + c by omega] at h
    exact h
  have hget : ∀ i, i < q → ((List.range q).map f).getD i (0, 0) = f i := by
    intro i hi
    rw [List.getD_eq_getElem?_getD, List.getElem?_map, List.getElem?_range hi]
    rfl
  refine ⟨(List.range q).map f, ?_, ?_, ?_, ?_, ?_, ?_, ?_⟩
  · simp only [splitDateRange, not_lt.2 hft, if_neg, hf, hq, hT]
    simp
  · rw [List.length_map, List.length_range]
  · have h0 : ((List.range q).map f).headD (0, 0) = ((List.range q).map f).getD 0 (0, 0) := by
      rw [List.headD_eq_head?, List.getD_eq_getElem?_getD, List.head?_eq_getElem?]
    rw [h0, hget 0 (by omega)]
    simp [hf]
  · have hlast : ((List.range q).map f).getLastD (0, 0) =
        ((List.range q).map f).getD (q - 1) (0, 0) := by
      rw [List.getLastD_eq_getLast?, List.getLast?_eq_getElem?, List.getD_eq_getElem?_getD]
      simp
    rw [hlast, hget (q - 1) (by omega)]
    have hc1 : (((q - 1 : ℕ) : ℤ) + 1) = (q : ℤ) := by
      push_cast [Nat.cast_sub hq1]; ring
    simp only [hf, hc1]
    have hcomm : (q : ℤ) * (c : ℤ) = (c : ℤ) * (q : ℤ) := mul_comm _ _
    omega
  · intro i hi
    rw [List.length_map, List.length_range] at hi
    rw [hget (i + 1) hi, hget i (by omega)]
    simp only [hf]
    have h1 : i + 2 ≤ q := by omega
    have h2 : (i + 2) * c ≤ q * c := Nat.mul_le_mul_right c h1
    have h3 : (((i + 2) * c : ℕ) : ℤ) ≤ ((q * c : ℕ) : ℤ) := by exact_mod_cast h2
    have e0 : (((i + 2) * c : ℕ) : ℤ) = ((i : ℤ) + 2) * (c : ℤ) := by push_cast; ring
    have e1 : ((q * c : ℕ) : ℤ) = (c : ℤ) * (q : ℤ) := by push_cast; ring
    rw [e0, e1] at h3
    push_cast
    have e2 : ((i : ℤ) + 1 + 1) * (c : ℤ) = ((i : ℤ) + 1) * (c : ℤ) + (c : ℤ) := by ring
    have e3 : ((i : ℤ) + 2) * (c : ℤ) = ((i : ℤ) + 1) * (c : ℤ) + (c : ℤ) := by ring
    rw [e3] at h3
    omega
  · intro i hi
    rw [List.length_map, List.length_range] at hi
    rw [hget i hi]
    simp only [hf]
    have h1 : i + 1 ≤ q := by omega
    have h2 : (i + 1) * c ≤ q * c := Nat.mul_le_mul_right c h1
    have h3 : (((i + 1) * c : ℕ) : ℤ) ≤ ((q * c : ℕ) : ℤ) := by exact_mod_cast h2
    have e0 : (((i + 1) * c : ℕ) : ℤ) = ((i : ℤ) + 1) * (c : ℤ) := by push_cast; ring
    have e1 : ((q * c : ℕ) : ℤ) = (c : ℤ) * (q : ℤ) := by push_cast; ring
    rw [e0, e1] at h3
    have e2 : ((i : ℤ) + 1) * (c : ℤ) = (i : ℤ) * (c : ℤ) + (c : ℤ) := by ring
    rw [e2] at h3
    omega
  · intro d hd1 hd2
    set x : ℕ := (d - fromD).toNat with hx
    have hdx : (x : ℤ) = d - fromD := by
      rw [hx]; exact Int.toNat_of_nonneg (by omega)
    have hxT : x < T := by
      have h : (x : ℤ) < (T : ℤ) := by omega
      exact_mod_cast h
    have hxdm := Nat.div_add_mod x c
    have hxmod := Nat.mod_lt x hc
    have hiq : x / c < q := by
      have h2 : c * (x / c) < c * q := by omega
      exact Nat.lt_of_mul_lt_mul_left h2
    have hcast1 : ((c * (x / c) : ℕ) : ℤ) = (c : ℤ) * (((x / c : ℕ)) : ℤ) := by push_cast; ring
    have hcx : (c : ℤ) * (((x / c : ℕ)) : ℤ) ≤ (x : ℤ) := by
      rw [← hcast1]; exact_mod_cast (by omega : c * (x / c) ≤ x)
    have hcx2 : (x : ℤ) < (c : ℤ) * (((x / c : ℕ)) : ℤ) + (c : ℤ) := by
      have h : ((x : ℕ) : ℤ) < ((c * (x / c) + c : ℕ) : ℤ) := by exact_mod_cast (by omega : x < c * (x / c) + c)
      push_cast at h
      omega
    refine ⟨x / c, ⟨?_, ?_, ?_⟩, ?_⟩
    · rw [List.length_map, List.length_range]; exact hiq
    · rw [hget (x / c) hiq]
      simp only [hf]
      have e2 : (((x / c : ℕ)) : ℤ) * (c : ℤ) = (c : ℤ) * (((x / c : ℕ)) : ℤ) := mul_comm _ _
      omega
    · rw [hget (x / c) hiq]
      simp only [hf]
      have e2 : ((((x / c : ℕ)) : ℤ) + 1) * (c : ℤ) = (c : ℤ) * (((x / c : ℕ)) : ℤ) + (c : ℤ) := by ring
      omega
    · intro j hj
      obtain ⟨hjq, hj1, hj2⟩ := hj
      rw [List.length_map, List.length_range] at hjq
      rw [hget j hjq] at hj1 hj2
      simp only [hf] at hj1 hj2
      have hj1' : j * c ≤ x := by
        have h : ((j * c : ℕ) : ℤ) ≤ (x : ℤ) := by push_cast; omega
        exact_mod_cast h
      have hj2' : x < (j + 1) * c := by
        have hmin : d ≤ fromD + ((j : ℤ) + 1) * c - 1 := le_trans hj2 (min_le_left _ _)
        have h : ((x : ℕ) : ℤ) < (((j + 1) * c : ℕ) : ℤ) := by push_cast; omega
        exact_mod_cast h
      have hle : j ≤ x / c := (Nat.le_div_iff_mul_le hc).2 hj1'
      have hlt : x / c < j + 1 := (Nat.div_lt_iff_lt_mul hc).2 hj2'
      omega

/-- Witness for C2 at `from = 0`, `to = 30`, `chunkDays = 10`. -/
theorem C2_splitDateRange_chunks_witness :
    (0 : ℤ) ≤ 30 ∧ 0 < 10 ∧
    ∃ chunks : List (ℤ × ℤ),
      splitDateRange 0 30 10 = .ok chunks ∧
      chunks.length = (((30 : ℤ) - 0).toNat + 1 + 10 - 1) / 10 := by
  refine ⟨by norm_num, by norm_num, ?_⟩
  obtain ⟨chunks, h1, h2, _⟩ := C2_splitDateRange_chunks 0 30 10 (by norm_num) (by norm_num)
  exact ⟨chunks, h1, h2⟩

/-- C7: `splitDateRange` fails with `InvalidRangeError` exactly when
`from > to`, and for any date `d` and positive chunk size the single-day
range yields exactly one chunk `[d, d]`. -/
theorem C7_invalid_range :
    (∀ (f t : ℤ) (c : ℕ), splitDateRange f t c = .error "InvalidRangeError" ↔ t < f) ∧
    (∀ (d : ℤ) (n : ℕ), 0 < n → splitDateRange d d n = .ok [(d, d)]) := by
  constructor
  · intro f t c
    unfold splitDateRange
    split
    · simp_all
    · simp_all
  · intro d n hn
    have h1 : ((d - d).toNat + 1 + n - 1) / n = 1 := by
      simp only [sub_self, Int.toNat_zero]
      rw [show 0 + 1 + n - 1 = n by omega]
      exact Nat.div_self hn
    simp only [splitDateRange, lt_irrefl, if_false, h1]
    rw [show List.range 1 = [0] from rfl]
    simp only [List.map_cons, List.map_nil, Nat.cast_zero, zero_mul, add_zero, zero_add, one_mul]
    have h2 : (d + (n : ℤ) - 1) ⊓ d = d := by
      have : (1 : ℤ) ≤ (n : ℤ) := by exact_mod_cast hn
      omega
    rw [h2]

/-- Witness for C7 at `d = 7`, `n = 3`. -/
theorem C7_invalid_range_witness :
    0 < 3 ∧ splitDateRange 7 7 3 = .ok [(7, 7)] :=
  ⟨by norm_num, C7_invalid_range.2 7 3 (by norm_num)⟩

/-- C3 (amended): `calculateMaxPainV3` restricts to expiry-matching rows and
returns the key of maximal pain; ties are broken towards the key that comes
first in the pain map's key enumeration, which for integer strikes is the
ascending numeric order (the smallest tied strike), not the payload's input
order; on the spec's example (strikes 100/110/120, call OI 10/5/0, put OI
0/5/15) the result is 110. -/
theorem C3_maxpain_amended :
    (∀ (rows : List RowV3) (expiry : String), painKeysV3 rows expiry ≠ [] →
      ∃ l1 l2, painKeysV3 rows expiry = l1 ++ calculateMaxPainV3 rows expiry :: l2 ∧
        (∀ k ∈ l1, painAtV3 rows expiry k < painAtV3 rows expiry (calculateMaxPainV3 rows expiry)) ∧
        (∀ k ∈ l2, painAtV3 rows expiry k ≤ painAtV3 rows expiry (calculateMaxPainV3 rows expiry))) ∧
    calculateMaxPainV3 maxPainExampleRows "E" = 110 := by
  constructor
  · intro rows expiry hne
    have heq : calculateMaxPainV3 rows expiry =
        firstArgmax (painAtV3 rows expiry) (painKeysV3 rows expiry) := by
      unfold calculateMaxPainV3
      exact headD_sortByDesc _ 0 _ hne
    rw [heq]
    exact firstArgmax_spec (painAtV3 rows expiry) (painKeysV3 rows expiry) hne
  · norm_num [calculateMaxPainV3, painKeysV3, painAtV3, rowPain, sortAsc, jsSetDedup,
      maxPainExampleRows, sortByDesc, insertByDesc, List.insertionSort, List.orderedInsert]

/-- Witness for C3 on the spec's example rows. -/
theorem C3_maxpain_amended_witness :
    painKeysV3 maxPainExampleRows "E" ≠ [] ∧
    ∃ l1 l2, painKeysV3 maxPainExampleRows "E" =
        l1 ++ calculateMaxPainV3 maxPainExampleRows "E" :: l2 ∧
      (∀ k ∈ l1, painAtV3 maxPainExampleRows "E" k <
        painAtV3 maxPainExampleRows "E" (calculateMaxPainV3 maxPainExampleRows "E")) ∧
      (∀ k ∈ l2, painAtV3 maxPainExampleRows "E" k ≤
        painAtV3 maxPainExampleRows "E" (calculateMaxPainV3 maxPainExampleRows "E")) :=
  ⟨by decide, C3_maxpain_amended.1 maxPainExampleRows "E" (by decide)⟩

/-- Counterexample for C3 as stated: with two tied strikes listed in
descending payload order, the function returns the smallest strike (the key
enumeration is ascending), not the one that comes first in the input order. -/
theorem C3_cex :
    calculateMaxPainV3 maxPainTieRows "E" = 100 ∧
    painAtV3 maxPainTieRows "E" 120 = painAtV3 maxPainTieRows "E" 100 ∧
    maxPainTieRows.map (·.strikePrice) = [120, 100] := by
  refine ⟨?_, ?_, by decide⟩
  · norm_num [calculateMaxPainV3, painKeysV3, painAtV3, rowPain, sortAsc, jsSetDedup,
      maxPainTieRows, sortByDesc, insertByDesc, List.insertionSort, List.orderedInsert]
  · norm_num [painAtV3, rowPain, maxPainTieRows]

/-- C5 (amended): on `pChange` values `[-1, 2, 5, 3]` for symbols
`[A, B, C, D]`, `getGainers` with count 2 returns `[C, D]`; `getLosers` with
count 2 returns `[A]` — A is the only row with negative `pChange`. -/
theorem C5_gainers_losers_amended :
    (getGainers marketExample (some 2)).map (·.symbol) = ["C", "D"] ∧
    (getLosers marketExample (some 2)).map (·.symbol) = ["A"] := by
  constructor <;> decide

/-- Counterexample for C5 as stated: `getLosers` does not return `[C, A]`
(C has positive `pChange` and is filtered out). -/
theorem C5_cex :
    (getLosers marketExample (some 2)).map (·.symbol) = ["A"] ∧
    (["A"] : List String) ≠ ["C", "A"] := by
  constructor <;> decide

/-- C10: when no row carries the probed expiry, both max-pain functions of
`options-api.ts` return the sentinel `0` instead of throwing or returning
`undefined`. -/
theorem C10_maxpain_no_match :
    (∀ (rows : List RowV3) (e : String), (∀ y ∈ rows, y.expiryDates ≠ e) →
      calculateMaxPainV3 rows e = 0) ∧
    (∀ (rows : List RowDual) (e : String), (∀ y ∈ rows, dualExpiry y ≠ some e) →
      calculateMaxPainDual rows e = 0) := by
  constructor
  · intro rows e h
    have hf : rows.filter (fun y => y.expiryDates = e) = [] := by
      rw [List.filter_eq_nil_iff]
      intro y hy
      simpa using h y hy
    unfold calculateMaxPainV3 painKeysV3
    rw [hf]
    rfl
  · intro rows e h
    have hf : rows.filter (fun y => dualExpiry y = some e) = [] := by
      rw [List.filter_eq_nil_iff]
      intro y hy
      simpa using h y hy
    unfold calculateMaxPainDual painKeysDual
    rw [hf]
    rfl

/-- Witness for C10 on one-row lists with a non-matching expiry. -/
theorem C10_maxpain_no_match_witness :
    (∀ y ∈ noMatchRowsV3, y.expiryDates ≠ "E") ∧
    calculateMaxPainV3 noMatchRowsV3 "E" = 0 ∧
    (∀ y ∈ noMatchRowsDual, dualExpiry y ≠ some "E") ∧
    calculateMaxPainDual noMatchRowsDual "E" = 0 :=
  ⟨by decide, C10_maxpain_no_match.1 noMatchRowsV3 "E" (by decide),
   by decide, C10_maxpain_no_match.2 noMatchRowsDual "E" (by decide)⟩

/-- C4: in `compileOptionChainV3` the strike interval is
`strikes[1] - strikes[0]` of the ascending-sorted distinct strikes when at
least two exist (else 50), and `atm = interval * Math.round(underlying /
interval)`; the filtered view instead returns as `atmStrike` a listed strike
at minimal absolute distance to the underlying. -/
theorem C4_atm_interval :
    (∀ (p : RecordsV3) (e : String) (s0 s1 : ℕ) (rest : List ℕ),
      sortAsc (jsSetDedup (p.data.map (·.strikePrice))) = s0 :: s1 :: rest →
      (compileOptionChainV3 p e).atm =
        ((s1 - s0 : ℕ) : ℚ) * (jsRound (p.underlyingValue / ((s1 - s0 : ℕ) : ℚ)) : ℚ)) ∧
    (∀ (p : RecordsV3) (e : String),
      (sortAsc (jsSetDedup (p.data.map (·.strikePrice)))).length ≤ 1 →
      (compileOptionChainV3 p e).atm =
        (50 : ℚ) * (jsRound (p.underlyingValue / 50) : ℚ)) ∧
    (∀ (p : RecordsV3) (r : ℕ) (fc : FilteredChain),
      getFilteredOptionChainV3 p r = .ok fc →
      fc.atmStrike ∈ p.data.map (·.strikePrice) ∧
      ∀ s : ℕ, s ∈ p.data.map (·.strikePrice) →
        |(fc.atmStrike : ℚ) - p.underlyingValue| ≤ |(s : ℚ) - p.underlyingValue|) := by
  refine ⟨?_, ?_, ?_⟩
  · intro p e s0 s1 rest h
    unfold compileOptionChainV3 strikeIntervalV3
    rw [h]
  · intro p e h
    unfold compileOptionChainV3 strikeIntervalV3
    cases hs : sortAsc (jsSetDedup (p.data.map (·.strikePrice))) with
    | nil => rfl
    | cons a t =>
      cases t with
      | nil => rfl
      | cons b t2 => rw [hs] at h; simp at h
  · intro p r fc hok
    unfold getFilteredOptionChainV3 at hok
    cases hd : jsSetDedup (p.data.map (·.strikePrice)) with
    | nil => rw [hd] at hok; exact absurd hok (by simp)
    | cons u0 us =>
      rw [hd] at hok
      simp only [Except.ok.injEq] at hok
      subst hok
      constructor
      · have hm := filteredAtmFold_mem p.underlyingValue us u0
        have hmem : filteredAtmFold p.underlyingValue u0 us ∈ u0 :: us := by
          rcases hm with h | h
          · rw [h]; exact List.mem_cons_self _ _
          · exact List.mem_cons_of_mem _ h
        rw [← hd] at hmem
        exact (mem_jsSetDedup _ _).1 hmem
      · intro s hs
        have hsd : s ∈ u0 :: us := by
          rw [← hd]
          exact (mem_jsSetDedup _ _).2 hs
        obtain ⟨h1, h2⟩ := filteredAtmFold_min p.underlyingValue us u0
        rcases List.mem_cons.1 hsd with rfl | hmem
        · exact h1
        · exact h2 s hmem

/-- Witness for C4: the three-strike example payload exercises the two-strike
interval branch; the single-strike payload exercises the 50 fallback and the
filtered view. -/
theorem C4_atm_interval_witness :
    (sortAsc (jsSetDedup ((RecordsV3.mk 100 "" maxPainExampleRows).data.map (·.strikePrice)))
      = 100 :: 110 :: [120]) ∧
    (compileOptionChainV3 (RecordsV3.mk 100 "" maxPainExampleRows) "E").atm =
      ((110 - 100 : ℕ) : ℚ) * (jsRound ((RecordsV3.mk 100 "" maxPainExampleRows).underlyingValue /
        ((110 - 100 : ℕ) : ℚ)) : ℚ) ∧
    (sortAsc (jsSetDedup (v3ZeroCoiPayload.data.map (·.strikePrice)))).length ≤ 1 ∧
    (compileOptionChainV3 v3ZeroCoiPayload "E").atm =
      (50 : ℚ) * (jsRound (v3ZeroCoiPayload.underlyingValue / 50) : ℚ) ∧
    ∃ fc : FilteredChain, getFilteredOptionChainV3 v3ZeroCoiPayload 0 = .ok fc ∧
      fc.atmStrike ∈ v3ZeroCoiPayload.data.map (·.strikePrice) := by
  refine ⟨by decide,
    C4_atm_interval.1 (RecordsV3.mk 100 "" maxPainExampleRows) "E" 100 110 [120] (by decide),
    by decide,
    C4_atm_interval.2.1 v3ZeroCoiPayload "E" (by decide), ?_⟩
  obtain ⟨fc, hfc⟩ : ∃ fc, getFilteredOptionChainV3 v3ZeroCoiPayload 0 = .ok fc := ⟨_, rfl⟩
  exact ⟨fc, hfc, (C4_atm_interval.2.2 v3ZeroCoiPayload 0 fc hfc).1⟩

/-- C1 (amended): the v3 compiler guards the chain-level PCR
(`pcr = coiTotal > 0 ? toFixed2(poiTotal/coiTotal) : 0`) and both compilers
store per-strike `pcr = null` when either leg's open interest is zero and
`toFixed2(poi/coi)` otherwise; the legacy compiler, however, divides
unguarded, so at `coiTotal = 0` its chain-level `pcr` is the non-finite JS
value (modelled `none`), not `0` — legacy and v3 do not behave identically
there. -/
theorem C1_pcr_guards_amended :
    (∀ (p : RecordsV3) (e : String),
      ((compileOptionChainV3 p e).coiTotal = 0 → (compileOptionChainV3 p e).pcr = 0) ∧
      (0 < (compileOptionChainV3 p e).coiTotal →
        (compileOptionChainV3 p e).pcr =
          toFixed2 ((compileOptionChainV3 p e).poiTotal / (compileOptionChainV3 p e).coiTotal))) ∧
    (∀ (p : RecordsV3) (e : String) (k : ℕ) (entry : StrikeEntry),
      (k, entry) ∈ (compileOptionChainV3 p e).chain → entryPcrOk entry) ∧
    (∀ (p : PayloadLegacy) (e : String) (c : CompiledOptionChainLegacy),
      compileOptionChainLegacy p e = .ok c →
      (c.coiTotal = 0 → c.pcr = none) ∧
      (c.coiTotal ≠ 0 → c.pcr = some (toFixed2 (c.poiTotal / c.coiTotal))) ∧
      (∀ (k : ℕ) (entry : StrikeEntry), (k, entry) ∈ c.chain → entryPcrOk entry)) := by
  refine ⟨?_, ?_, ?_⟩
  · intro p e
    unfold compileOptionChainV3
    dsimp only
    constructor
    · intro h
      rw [h]
      simp
    · intro h
      rw [if_pos h]
  · intro p e k entry hmem
    unfold compileOptionChainV3 at hmem
    dsimp only at hmem
    have := foldl_compileStepCore_ok (·.strikePrice) (·.CE) (·.PE) p.data initAcc
      (by intro q hq; simp [initAcc] at hq) (k, entry) hmem
    exact this
  · intro p e c hok
    unfold compileOptionChainLegacy at hok
    split at hok
    case _ s1 s2 rest heq =>
      simp only [Except.ok.injEq] at hok
      subst hok
      dsimp only
      refine ⟨?_, ?_, ?_⟩
      · intro h
        rw [h]
        simp [jsDiv]
      · intro h
        simp [jsDiv, h]
      · intro k entry hmem
        have := foldl_compileStepCore_ok (·.strikePrice) (·.CE) (·.PE)
          (p.recordsData.filter (fun idx => idx.expiryDate = e)) initAcc
          (by intro q hq; simp [initAcc] at hq) (k, entry) hmem
        exact this
    case _ => exact absurd hok (by simp)

/-- Witness for C1 on the concrete zero-call-open-interest payloads. -/
theorem C1_pcr_guards_witness :
    (compileOptionChainV3 v3ZeroCoiPayload "E").coiTotal = 0 ∧
    (compileOptionChainV3 v3ZeroCoiPayload "E").pcr = 0 ∧
    ∃ c : CompiledOptionChainLegacy,
      compileOptionChainLegacy legacyZeroCoiPayload "E" = .ok c ∧
      (c.coiTotal = 0 → c.pcr = none) := by
  have h1 : (compileOptionChainV3 v3ZeroCoiPayload "E").coiTotal = 0 := by
    norm_num [compileOptionChainV3, compileStepCore, initAcc, v3ZeroCoiPayload]
  refine ⟨h1, (C1_pcr_guards_amended.1 v3ZeroCoiPayload "E").1 h1, ?_⟩
  obtain ⟨c, hc⟩ : ∃ c, compileOptionChainLegacy legacyZeroCoiPayload "E" = .ok c := ⟨_, rfl⟩
  exact ⟨c, hc, (C1_pcr_guards_amended.2.2 legacyZeroCoiPayload "E" c hc).1⟩

/-- Counterexample for C1 as stated: on the same single-row chain with a put
leg of open interest 5 and no call leg (`coiTotal = 0`), the legacy compiler
yields a non-finite chain-level `pcr` (modelled `none`) while the v3 compiler
yields `0` — the two paths do not behave identically. -/
theorem C1_cex :
    (compileOptionChainLegacy legacyZeroCoiPayload "E").map
      (fun c => (c.coiTotal, c.pcr)) = .ok ((0 : ℚ), (none : Option ℚ)) ∧
    (compileOptionChainV3 v3ZeroCoiPayload "E").coiTotal = 0 ∧
    (compileOptionChainV3 v3ZeroCoiPayload "E").pcr = 0 := by
  refine ⟨?_, ?_, ?_⟩
  · norm_num [compileOptionChainLegacy, compileStepCore, initAcc, legacyZeroCoiPayload,
      jsDiv, Except.map]
  · norm_num [compileOptionChainV3, compileStepCore, initAcc, v3ZeroCoiPayload]
  · norm_num [compileOptionChainV3, compileStepCore, initAcc, v3ZeroCoiPayload]

/-- `handleData` on a token without a space character coincides with the
non-splitting `dispatchToken` (the sub-tokens produced by `splitTokens`
contain no space, so the one-level recursion of the source terminates). -/
theorem handleData_eq_dispatchToken (st : MachineState) (data : String)
    (h : jsContainsSpace data = false) : handleData st data = dispatchToken st data := by
  unfold handleData dispatchToken
  simp [h]

/-- C6 (amended): a fragment is split into space-separated sub-tokens, each
dispatched in order, exactly when it contains a space character (U+0020 — a
tab does not trigger the split) and `company_name` is already populated; when
`company_name` is missing the fragment is stored whole; the spec's
three-fragment and four-fragment feeds produce the same record. -/
theorem C6_split_dispatch_amended :
    (∀ (st : MachineState) (data : String),
      st.start = true → st.index < 4 → fieldSet st.result st.index = false →
      jsContainsSpace data = true →
      (st.result.company_name.isSome = true →
        handleData st data = (splitTokens data).foldl dispatchToken st) ∧
      (st.result.company_name = none →
        handleData st data =
          { st with result := setField st.result st.index (jsTrim data),
                    index := st.index + 1 })) ∧
    feedFragments initMachine ["HDFC Bank Ltd", "HDFCBANK  INE040A01034", "500180"] =
      feedFragments initMachine ["HDFC Bank Ltd", "HDFCBANK", "INE040A01034", "500180"] ∧
    getResult (feedFragments initMachine ["HDFC Bank Ltd", "HDFCBANK  INE040A01034", "500180"]) =
      some { company_name := some "HDFC Bank Ltd", symbol := some "HDFCBANK",
             isin := some "INE040A01034", bse_code := some "500180" } := by
  refine ⟨?_, by decide, by decide⟩
  intro st data h1 h2 h3 h4
  constructor
  · intro h5
    unfold handleData
    simp [h1, h2, h3, h4, h5]
  · intro h5
    unfold handleData
    simp [h1, h2, h3, h4, h5]

/-- Witness for C6: dispatching a two-token fragment once a company name is
present splits it. -/
theorem C6_split_dispatch_amended_witness :
    ((feedFragments initMachine ["X Co"]).start = true ∧
     (feedFragments initMachine ["X Co"]).index < 4 ∧
     fieldSet (feedFragments initMachine ["X Co"]).result
       (feedFragments initMachine ["X Co"]).index = false ∧
     jsContainsSpace "HDFCBANK  INE040A01034" = true) ∧
    handleData (feedFragments initMachine ["X Co"]) "HDFCBANK  INE040A01034" =
      (splitTokens "HDFCBANK  INE040A01034").foldl dispatchToken
        (feedFragments initMachine ["X Co"]) :=
  ⟨⟨by decide, by decide, by decide, by decide⟩,
   (C6_split_dispatch_amended.1 (feedFragments initMachine ["X Co"])
     "HDFCBANK  INE040A01034" (by decide) (by decide) (by decide) (by decide)).1 (by decide)⟩

/-- Counterexample for C6 as stated: a fragment containing whitespace (a tab)
is not split even though `company_name` is populated — the code only splits
on the space character, so the whole fragment lands in `symbol`. -/
theorem C6_cex :
    (feedFragments initMachine ["X Co", "AB\tCD"]).result =
      { company_name := some "X Co", symbol := some "AB\tCD" } ∧
    "AB\tCD".data.any Char.isWhitespace = true ∧
    jsContainsSpace "AB\tCD" = false := by
  refine ⟨by decide, by decide, by decide⟩

/-- C8: `getResult` returns the accumulated record as-is exactly when the
`symbol` field holds a (truthy) value, and `none` otherwise; a record with
`symbol` set but `isin`/`bse_code` missing is returned as-is. -/
theorem C8_getResult :
    (∀ st : MachineState, st.result.symbol = none → getResult st = none) ∧
    (∀ (st : MachineState) (s : String), st.result.symbol = some s → s ≠ "" →
      getResult st = some st.result) ∧
    getResult (feedFragments initMachine ["HDFC Bank Ltd"]) = none ∧
    getResult (feedFragments initMachine ["HDFC Bank Ltd", "HDFCBANK"]) =
      some { company_name := some "HDFC Bank Ltd", symbol := some "HDFCBANK" } := by
  refine ⟨?_, ?_, by decide, by decide⟩
  · intro st h
    unfold getResult
    rw [h]
  · intro st s h1 h2
    unfold getResult
    rw [h1]
    simp [h2]

/-- Witness for C8 at the two-fragment state. -/
theorem C8_getResult_witness :
    (feedFragments initMachine ["HDFC Bank Ltd", "HDFCBANK"]).result.symbol =
      some "HDFCBANK" ∧
    getResult (feedFragments initMachine ["HDFC Bank Ltd", "HDFCBANK"]) =
      some (feedFragments initMachine ["HDFC Bank Ltd", "HDFCBANK"]).result :=
  ⟨by decide,
   C8_getResult.2.1 (feedFragments initMachine ["HDFC Bank Ltd", "HDFCBANK"])
     "HDFCBANK" (by decide) (by decide)⟩

/-- C9: `Throttle.check` stores the completion instant (after the wait, not
before) into the class timestamp, suspends for `delay - (now - last)` when
that is positive, and two back-to-back default-class calls complete at least
the configured 125 ms apart (time modelled explicitly in milliseconds). -/
theorem C9_throttle_spacing :
    (∀ (cls : ThrottleClass) (now : ℤ) (st : ThrottleState),
      lastRequest (throttleCheck cls now st).2 cls = (throttleCheck cls now st).1) ∧
    (∀ (cls : ThrottleClass) (now : ℤ) (st : ThrottleState),
      0 < throttleDelay cls - (now - lastRequest st cls) →
      (throttleCheck cls now st).1 = now + (throttleDelay cls - (now - lastRequest st cls))) ∧
    (∀ (st0 : ThrottleState) (t0 t1 : ℤ),
      (throttleCheck .default t0 st0).1 ≤ t1 →
      throttleDelay .default ≤
        (throttleCheck .default t1 (throttleCheck .default t0 st0).2).1 -
          (throttleCheck .default t0 st0).1) := by
  refine ⟨?_, ?_, ?_⟩
  · intro cls now st
    cases cls <;> simp [throttleCheck, lastRequest]
  · intro cls now st h
    unfold throttleCheck
    dsimp only
    rw [if_pos h]
  · intro st0 t0 t1 h
    simp only [throttleCheck, lastRequest, throttleDelay] at h ⊢
    split_ifs at h ⊢ <;> omega

/-- Witness for C9: a first call at t = 200 (no wait needed), a second
back-to-back call. -/
theorem C9_throttle_spacing_witness :
    (0 < throttleDelay .default - (100 - lastRequest ⟨0, 0⟩ .default) ∧
      (throttleCheck .default 100 ⟨0, 0⟩).1 =
        100 + (throttleDelay .default - (100 - lastRequest ⟨0, 0⟩ .default))) ∧
    ((throttleCheck .default 200 ⟨0, 0⟩).1 ≤ 200 ∧
      throttleDelay .default ≤
        (throttleCheck .default 200 (throttleCheck .default 200 ⟨0, 0⟩).2).1 -
          (throttleCheck .default 200 ⟨0, 0⟩).1) :=
  ⟨⟨by decide, C9_throttle_spacing.2.1 .default 100 ⟨0, 0⟩ (by decide)⟩,
   ⟨by decide, C9_throttle_spacing.2.2 ⟨0, 0⟩ 200 200 (by decide)⟩⟩
